import Mathlib

/-!
Verification of the cal.com scheduling glue code: slot end-time
normalization, domain-wide-delegation (DWD) credential building and
merging, credential lookup, CSRF verification and internal-note
persistence.  The definitions below are shallow embeddings of the
TypeScript source; theorems settle the specification claims.
-/

namespace CalSpec

/-! ## Slot query normalizer: `adjustEndTime` (src/unnamed/part_000)

`DateTime.fromISO(endTime, { zone: "utc" })` parses an ISO instant; we
model the parsed value as calendar fields in UTC. -/

structure DateTimeUTC where
  year : Nat
  month : Nat
  day : Nat
  hour : Nat
  minute : Nat
  second : Nat
  millisecond : Nat
deriving DecidableEq, Repr

/-- Digit value of an ASCII digit character. -/
def digitVal (c : Char) : Option Nat :=
  if c.isDigit then some (c.toNat - 48) else none

/-- Two-digit field. -/
def digits2 (a b : Char) : Option Nat := do
  let x ← digitVal a
  let y ← digitVal b
  pure (10 * x + y)

/-- Three-digit field. -/
def digits3 (a b c : Char) : Option Nat := do
  let x ← digitVal a
  let y ← digits2 b c
  pure (100 * x + y)

/-- Four-digit field. -/
def digits4 (a b c d : Char) : Option Nat := do
  let x ← digits2 a b
  let y ← digits2 c d
  pure (100 * x + y)

/-- Parse a canonical UTC ISO-8601 instant `YYYY-MM-DDTHH:MM:SS.mmmZ`,
the format in which end times reach `adjustEndTime`, with luxon's
field-range validation. -/
def parseISO (s : String) : Option DateTimeUTC :=
  match s.toList with
  | [y1, y2, y3, y4, '-', mo1, mo2, '-', d1, d2, 'T',
     h1, h2, ':', mi1, mi2, ':', s1, s2, '.', ms1, ms2, ms3, 'Z'] => do
      let year ← digits4 y1 y2 y3 y4
      let month ← digits2 mo1 mo2
      let day ← digits2 d1 d2
      let hour ← digits2 h1 h2
      let minute ← digits2 mi1 mi2
      let second ← digits2 s1 s2
      let millisecond ← digits3 ms1 ms2 ms3
      if 1 ≤ month ∧ month ≤ 12 ∧ 1 ≤ day ∧ day ≤ 31 ∧
         hour ≤ 23 ∧ minute ≤ 59 ∧ second ≤ 59 then
        pure ⟨year, month, day, hour, minute, second, millisecond⟩
      else none
  | _ => none

/-- Left-pad the decimal representation of `n` with zeros to width `w`. -/
def padNat (w n : Nat) : String :=
  let r := Nat.repr n
  String.mk (List.replicate (w - r.length) '0') ++ r

/-- Serialization mirroring luxon's `toISO()` for a UTC-zone `DateTime`. -/
def toISO (dt : DateTimeUTC) : String :=
  padNat 4 dt.year ++ "-" ++ padNat 2 dt.month ++ "-" ++ padNat 2 dt.day ++ "T" ++
    padNat 2 dt.hour ++ ":" ++ padNat 2 dt.minute ++ ":" ++ padNat 2 dt.second ++
    "." ++ padNat 3 dt.millisecond ++ "Z"

/-- Source `SlotsInputService_2024_09_04.adjustEndTime`, field-level step: if
hour, minute and second are all zero, set them to 23:59:59. -/
def adjustEndTimeFields (dateTime : DateTimeUTC) : DateTimeUTC :=
  if dateTime.hour = 0 ∧ dateTime.minute = 0 ∧ dateTime.second = 0 then
    { dateTime with hour := 23, minute := 59, second := 59 }
  else dateTime

/-- Source `SlotsInputService_2024_09_04.adjustEndTime`: parse as UTC ISO
instant, apply the midnight adjustment, re-serialize. -/
def adjustEndTime (endTime : String) : Option String :=
  (parseISO endTime).map (fun dt => toISO (adjustEndTimeFields dt))

/-! ## DWD credential model (src/packages/lib/domainWideDelegation/server.ts) -/

structure ServiceAccountKey where
  contents : String
deriving DecidableEq, Repr

/-- Source `DomainWideDelegation` (with the `enabled` extension used by
`_buildDwdCredentials`): id, workspace platform slug, optional sensitive
service-account key, enabled flag. -/
structure DomainWideDelegation where
  id : String
  workspacePlatformSlug : String
  serviceAccountKey : Option ServiceAccountKey
  enabled : Bool
deriving DecidableEq, Repr

structure User where
  email : String
  id : Int
deriving DecidableEq, Repr

/-- One credential record; covers both the in-memory delegated
credentials and stored `CredentialPayload` rows.  The JSON `key` payload
is kept opaque as a string. -/
structure Credential where
  type : String
  appId : Option String
  id : Int
  delegatedToId : Option String
  userId : Option Int
  userEmail : Option String
  key : String
  invalid : Bool
  teamId : Option Int
  delegatedTo : Option ServiceAccountKey
deriving DecidableEq, Repr

structure AppMetadata where
  type : String
  slug : String
deriving DecidableEq, Repr

/-- Modelled from the spec: metadata of the calendar capability's app
("google_calendar"); the metadata module itself is outside src/. -/
def googleCalendarMetadata : AppMetadata :=
  { type := "google_calendar", slug := "google-calendar" }

/-- Modelled from the spec: metadata of the conferencing capability's
app ("google_video" / Google Meet); the metadata module is outside src/. -/
def googleMeetMetadata : AppMetadata :=
  { type := "google_video", slug := "google-meet" }

/-- JavaScript `String.prototype.endsWith`, modelled on character
lists. -/
def strEndsWith (s pat : String) : Bool :=
  List.isSuffixOf pat.toList s.toList

/-- Source `_isConferencingCredential`. -/
def _isConferencingCredential (credential : Credential) : Bool :=
  strEndsWith credential.type "_video" ||
  strEndsWith credential.type "_conferencing" ||
  strEndsWith credential.type "_messaging"

/-- Source `_isCalendarCredential`. -/
def _isCalendarCredential (credential : Credential) : Bool :=
  strEndsWith credential.type "_calendar"

/-- Source `_buildCommonUserCredential`: the fields shared by both delegated
credential shapes; `type` and `appId` are filled in by the builders that
spread this record. -/
def _buildCommonUserCredential (dwd : DomainWideDelegation) (user : User) : Credential :=
  { type := ""
    appId := none
    id := -1
    delegatedToId := some dwd.id
    userId := some user.id
    userEmail := some user.email
    key := "NOOP_UNUSED_DELEGATION_TOKEN"
    invalid := false
    teamId := none
    delegatedTo := dwd.serviceAccountKey.map (fun k => k) }

/-- Source `_buildDwdCalendarCredential`: null unless the platform is google. -/
def _buildDwdCalendarCredential (dwd : DomainWideDelegation) (user : User) :
    Option Credential :=
  if dwd.workspacePlatformSlug ≠ "google" then none
  else some { _buildCommonUserCredential dwd user with
                type := googleCalendarMetadata.type
                appId := some googleCalendarMetadata.slug }

/-- Source `_buildDwdConferencingCredential`: null unless the platform is google. -/
def _buildDwdConferencingCredential (dwd : DomainWideDelegation) (user : User) :
    Option Credential :=
  if dwd.workspacePlatformSlug ≠ "google" then none
  else some { _buildCommonUserCredential dwd user with
                type := googleMeetMetadata.type
                appId := some googleMeetMetadata.slug }

/-- Source `_buildDwdCredentials`: empty for a null or disabled configuration,
otherwise the calendar and conferencing credentials with the nulls
filtered out. -/
def _buildDwdCredentials (dwd : Option DomainWideDelegation) (user : User) :
    List Credential :=
  match dwd with
  | none => []
  | some d =>
    if ¬ d.enabled then []
    else [_buildDwdCalendarCredential d user,
          _buildDwdConferencingCredential d user].filterMap id

/-! ## Credential merger (`buildAllCredentials`) -/

/-- JavaScript truthiness of a `string | null | undefined` value:
`null`, `undefined` and `""` are falsy. -/
def isTruthyStr : Option String → Bool
  | none => false
  | some s => s ≠ ""

/-- JavaScript truthiness of a `number | null | undefined` value:
`null`, `undefined` and `0` are falsy. -/
def isTruthyInt : Option Int → Bool
  | none => false
  | some n => n ≠ 0

/-- Modelled from the spec: `isDwdCredential` (clientAndServer.ts, not
under src/) flags the fixed negative placeholder identifier stamped on
delegated credentials. -/
def isDwdCredential (credentialId : Int) : Bool :=
  credentialId < 0

/-- Modelled from the spec: `buildNonDwdCredential` (clientAndServer.ts,
not under src/), the stored-credential normalizer; stored credentials
carry no delegation back-reference (null). -/
def buildNonDwdCredential (cred : Credential) : Credential :=
  { cred with delegatedToId := none, delegatedTo := none }

/-- Modelled from the spec: `buildNonDwdCredentials` maps the normalizer
over a list of stored credentials. -/
def buildNonDwdCredentials (creds : List Credential) : List Credential :=
  creds.map buildNonDwdCredential

/-- The duplicate test of `buildAllCredentials`'s reduce:
`c.delegatedToId === credential.delegatedToId && c.appId === credential.appId`. -/
def dwdKeyMatches (c credential : Credential) : Bool :=
  c.delegatedToId == credential.delegatedToId && c.appId == credential.appId

/-- One step of the `reduce` inside `buildAllCredentials`: a credential
with a falsy `delegatedToId` is pushed as is; a delegated credential is
pushed only when no already-kept credential matches its
(delegatedToId, appId) key. -/
def addUnique (acc : List Credential) (credential : Credential) : List Credential :=
  if ¬ isTruthyStr credential.delegatedToId then acc ++ [credential]
  else if (acc.find? (fun c => dwdKeyMatches c credential)).isSome then acc
  else acc ++ [credential]

/-- Source `buildAllCredentials`: filter flagged stored credentials, normalize
the rest, concatenate delegated-first, deduplicate with the reduce. -/
def buildAllCredentials (dwdCredentials existingCredentials : List Credential) :
    List Credential :=
  let nonDwdCredentials :=
    existingCredentials.filter (fun cred => ¬ isDwdCredential cred.id)
  let allCredentials := dwdCredentials ++ buildNonDwdCredentials nonDwdCredentials
  allCredentials.foldl addUnique []

/-- The concatenated pre-deduplication list of `buildAllCredentials`. -/
def allCredentialsOf (dwdCredentials existingCredentials : List Credential) :
    List Credential :=
  dwdCredentials ++
    buildNonDwdCredentials
      (existingCredentials.filter (fun cred => ¬ isDwdCredential cred.id))

/-- Recursion-friendly form of the deduplicating fold: `acc` is the list
kept so far, the result is what the fold appends after `acc`. -/
def dedupeGo (acc : List Credential) : List Credential → List Credential
  | [] => []
  | c :: cs =>
    if isTruthyStr c.delegatedToId ∧ (acc.find? (fun p => dwdKeyMatches p c)).isSome
    then dedupeGo acc cs
    else c :: dedupeGo (acc ++ [c]) cs

/-! ## Credential lookup utilities -/

/-- Source `getDwdOrRegularCredential`: scan one merged list; a delegated
credential (truthy `delegatedToId`) matches only on the delegation id, a
regular one only on a truthy numeric id; otherwise no match. -/
def getDwdOrRegularCredential (credentials : List Credential)
    (dwdId : Option String) (credentialId : Option Int) : Option Credential :=
  credentials.find? (fun cred =>
    if isTruthyStr cred.delegatedToId then cred.delegatedToId == dwdId
    else if isTruthyInt credentialId then some cred.id == credentialId
    else false)

/-- Source `getDwdOrFindRegularCredential`: with a truthy delegation id search
the delegated credentials by back-reference; else with a truthy numeric
id ask the credential repository (modelled as `repoFindById`); else null. -/
def getDwdOrFindRegularCredential (repoFindById : Int → Option Credential)
    (dwdCredentials : List Credential)
    (domainWideDelegationCredentialId : Option String)
    (credentialId : Option Int) : Option Credential :=
  if isTruthyStr domainWideDelegationCredentialId then
    dwdCredentials.find?
      (fun cred => cred.delegatedToId == domainWideDelegationCredentialId)
  else if isTruthyInt credentialId then
    match credentialId with
    | some n => repoFindById n
    | none => none
  else none

/-! ## Per-user resolver and enrichment -/

/-- The credentials-by-user-id map built by `_getDwdCredentialsMapPerUser`,
as a function (a `Map.set` in a loop overrides earlier entries). -/
def CredMap := Int → Option (List Credential)

def emptyCredMap : CredMap := fun _ => none

/-- Source `credentialsByUserId.set user.id dwdCredentials` applied for each
user in batch order. -/
def setCredMap (m : CredMap) (uid : Int) (creds : List Credential) : CredMap :=
  fun i => if i = uid then some creds else m i

/-- Source `users[0].email.split("@")[1]`: the domain part, `none` when the
email has no `@` (JavaScript `undefined`). -/
def emailDomain (email : String) : Option String :=
  (email.splitOn "@").get? 1

/-- Source `_getDwdCredentialsMapPerUser`.  The repository lookup by
organization and domain is the external collaborator `repoFindByOrgDomain`.
The guard `if (!organizationId)` is JavaScript falsiness: null,
undefined and 0 all short-circuit to the empty map.  A `none` result
models the crash: with a truthy organization id the code dereferences
`users[0]`, which does not exist for an empty batch. -/
def _getDwdCredentialsMapPerUser
    (repoFindByOrgDomain : Int → Option String → Option DomainWideDelegation)
    (organizationId : Option Int) (users : List User) : Option CredMap :=
  if !(isTruthyInt organizationId) then some emptyCredMap
  else
    match users with
    | [] => none
    | u0 :: _ =>
      let domain := emailDomain u0.email
      match repoFindByOrgDomain (organizationId.getD 0) domain with
      | none => some emptyCredMap
      | some dwd =>
        if ¬ dwd.enabled then some emptyCredMap
        else some (users.foldl
          (fun m user => setCredMap m user.id (_buildDwdCredentials (some dwd) user))
          emptyCredMap)

/-- A user-shaped record for enrichment: id, email, credentials, and all
remaining fields collected in `rest`. -/
structure EnrichedUser (α : Type) where
  id : Int
  email : String
  credentials : List Credential
  rest : α
deriving DecidableEq, Repr

/-- A host-shaped record: a wrapped user plus all non-user host fields
collected in `rest`. -/
structure EnrichedHost (α β : Type) where
  user : EnrichedUser α
  rest : β
deriving DecidableEq, Repr

def userRefOf {α : Type} (u : EnrichedUser α) : User :=
  { email := u.email, id := u.id }

/-- Source `enrichUsersWithDwdCredentials`: build the per-user delegated
credential map, then rebuild each user record with the merged
credential set; `none` propagates the empty-batch crash. -/
def enrichUsersWithDwdCredentials {α : Type}
    (repoFindByOrgDomain : Int → Option String → Option DomainWideDelegation)
    (orgId : Option Int) (users : List (EnrichedUser α)) :
    Option (List (EnrichedUser α)) :=
  match _getDwdCredentialsMapPerUser repoFindByOrgDomain orgId (users.map userRefOf) with
  | none => none
  | some dwdCredentialsMap =>
    some (users.map (fun user =>
      { user with
          credentials := buildAllCredentials
            ((dwdCredentialsMap user.id).getD []) user.credentials }))

/-- Source `enrichHostsWithDwdCredentials`: same map keyed by the wrapped
users, each host rebuilt around its enriched user. -/
def enrichHostsWithDwdCredentials {α β : Type}
    (repoFindByOrgDomain : Int → Option String → Option DomainWideDelegation)
    (orgId : Option Int) (hosts : List (EnrichedHost α β)) :
    Option (List (EnrichedHost α β)) :=
  match _getDwdCredentialsMapPerUser repoFindByOrgDomain orgId
      (hosts.map (fun host => userRefOf host.user)) with
  | none => none
  | some dwdCredentialsMap =>
    some (hosts.map (fun host =>
      { host with
          user := { host.user with
            credentials := buildAllCredentials
              ((dwdCredentialsMap host.user.id).getD []) host.user.credentials } }))

/-! ## CSRF manager (`RealCSRF`, src/unnamed/part_001)

The hash and HMAC primitives are abstract parameters (`CryptoPrims`);
`randomBytes` is injected as the `newSalt` argument.  Cookie parsing is
modelled as an association list (the `cookie` parser keeps the first
occurrence of a name, as does `List.lookup`). -/

structure CryptoPrims where
  sha1b64url : String → String
  hmac : String → String → String

def secretCookieName : String := "csrfSecret"

def tokenCookieName : String := "XSRF-TOKEN"

/-- Index of the first occurrence of `c` (JS `indexOf`, `none` for -1). -/
def firstIndexOf (l : List Char) (c : Char) : Option Nat :=
  match l with
  | [] => none
  | x :: xs =>
    if x = c then some 0
    else (firstIndexOf xs c).map (· + 1)

/-- Index of the last occurrence of `c` (JS `lastIndexOf`, `none` for -1). -/
def lastIndexOf (l : List Char) (c : Char) : Option Nat :=
  match l with
  | [] => none
  | x :: xs =>
    match lastIndexOf xs c with
    | some i => some (i + 1)
    | none => if x = c then some 0 else none

/-- Source `RealCSRF.tokenize`: salt, a dash, then the hash of salt-dash-secret. -/
def tokenize (P : CryptoPrims) (secret salt : String) : String :=
  salt ++ "-" ++ P.sha1b64url (salt ++ "-" ++ secret)

/-- Source `RealCSRF.verifyToken`: split at the first `-`, recompute the token
from the extracted salt and the secret, compare (tsscmp = equality). -/
def verifyToken (P : CryptoPrims) (secret token : String) : Bool :=
  match firstIndexOf token.toList '-' with
  | none => false
  | some index =>
    let salt := String.mk (token.toList.take index)
    token == tokenize P secret salt

/-- cookie-signature `sign`: value, a dot, then the HMAC of the value. -/
def cookieSign (P : CryptoPrims) (val secret : String) : String :=
  val ++ "." ++ P.hmac val secret

/-- cookie-signature `unsign`: slice up to the last dot (JS `slice(0, -1)`
drops the final character when there is no dot), re-sign, compare. -/
def cookieUnsign (P : CryptoPrims) (signedValue secret : String) : Option String :=
  let l := signedValue.toList
  let tentativeValue :=
    match lastIndexOf l '.' with
    | some i => String.mk (l.take i)
    | none => String.mk (l.take (l.length - 1))
  if cookieSign P tentativeValue secret == signedValue then some tentativeValue
  else none

/-- An incoming request as the CSRF code sees it: an optional cookie
header, already parsed to name/value pairs. -/
structure Request where
  cookieHeader : Option (List (String × String))

/-- Source `RealCSRF.verify`: reject when the cookie header is absent, when the
token or secret cookie is falsy, when unsigning fails, or when the token
does not verify against the cookie secret; otherwise answer with the
`Set-Cookie` list containing the freshly signed rotated token. -/
def verify (P : CryptoPrims) (secret newSalt : String) (req : Request) :
    Except Unit (List (String × String)) :=
  match req.cookieHeader with
  | none => Except.error ()
  | some pairs =>
    let token? := pairs.lookup tokenCookieName
    let csrfSecret? := pairs.lookup secretCookieName
    if ¬ (isTruthyStr token? ∧ isTruthyStr csrfSecret?) then Except.error ()
    else
      let token := token?.getD ""
      let csrfSecret := csrfSecret?.getD ""
      match cookieUnsign P token secret with
      | none => Except.error ()
      | some unsignedToken =>
        if ¬ verifyToken P csrfSecret unsignedToken then Except.error ()
        else Except.ok
          [(tokenCookieName, cookieSign P (tokenize P csrfSecret newSalt) secret)]

/-- Apply a `Set-Cookie` list to a client cookie store: newly set
cookies shadow existing ones of the same name. -/
def applyCookies (setCookies store : List (String × String)) :
    List (String × String) :=
  setCookies ++ store

/-! ## Internal note writer (`handleInternalNote`, src/unnamed/part_001) -/

structure NoteHost where
  userId : Int
deriving DecidableEq, Repr

structure NoteOwner where
  id : Option Int
deriving DecidableEq, Repr

structure NoteEventType where
  hosts : List NoteHost
  owner : Option NoteOwner
deriving DecidableEq, Repr

structure Booking where
  id : Int
  eventType : NoteEventType
deriving DecidableEq, Repr

structure InternalNote where
  id : Int
  name : String
  value : Option String
deriving DecidableEq, Repr

/-- One `internalNotePreset` row: a preset id and its team. -/
structure NotePreset where
  id : Int
  teamId : Option Int
deriving DecidableEq, Repr

inductive NoteError
  | forbidden
  | notFound
deriving DecidableEq, Repr

/-- The row a successful call creates in `bookingInternalNote`. -/
inductive CreatedNote
  | freeform (bookingId : Int) (text : Option String) (createdBy : Int)
  | preset (bookingId : Int) (notePresetId : Int) (createdBy : Int)
deriving DecidableEq, Repr

/-- The Prisma `where { teamid: teamId, id: internalNote.id }` filter;
an `undefined` `teamId` (outer `none`) drops the team condition. -/
def presetMatches (teamId : Option (Option Int)) (noteId : Int)
    (p : NotePreset) : Bool :=
  (match teamId with
   | none => true
   | some t => p.teamId == t) && p.id == noteId

/-- Source `userIsHost`: the user appears among the event type's hosts. -/
def noteUserIsHost (booking : Booking) (userId : Int) : Bool :=
  (booking.eventType.hosts.find? (fun host => host.userId == userId)).isSome

/-- Source `userIsOwnerOfEventType`: `booking.eventType.owner?.id === userId`
(false when the owner is absent or its id is null). -/
def noteUserIsOwner (booking : Booking) (userId : Int) : Bool :=
  match booking.eventType.owner with
  | some o => o.id == some userId
  | none => false

/-- Source `handleInternalNote`: a 403 unless the user is a host or the
event-type owner; id -1 creates a freeform note; any other id requires a
matching preset (`findFirstOrThrow`) or fails with Not-Found. -/
def handleInternalNote (presets : List NotePreset) (internalNote : InternalNote)
    (booking : Booking) (userId : Int) (teamId : Option (Option Int)) :
    Except NoteError CreatedNote :=
  let userIsHost := noteUserIsHost booking userId
  let userIsOwnerOfEventType := noteUserIsOwner booking userId
  if !userIsHost && !userIsOwnerOfEventType then Except.error NoteError.forbidden
  else if internalNote.id = -1 then
    Except.ok (CreatedNote.freeform booking.id internalNote.value userId)
  else
    match presets.find? (presetMatches teamId internalNote.id) with
    | none => Except.error NoteError.notFound
    | some _ =>
      Except.ok (CreatedNote.preset booking.id internalNote.id userId)

/-! ## Theorems -/

theorem dwdKeyMatches_self (c : Credential) : dwdKeyMatches c c = true := by
  simp [dwdKeyMatches]

theorem addUnique_eq (acc : List Credential) (c : Credential) :
    addUnique acc c =
      if isTruthyStr c.delegatedToId ∧ (acc.find? (fun p => dwdKeyMatches p c)).isSome
      then acc else acc ++ [c] := by
  by_cases ht : isTruthyStr c.delegatedToId
  · by_cases hf : (acc.find? (fun p => dwdKeyMatches p c)).isSome
    · simp [addUnique, ht, hf]
    · simp [addUnique, ht, hf]
  · simp [addUnique, ht]

theorem foldl_addUnique_eq (l : List Credential) :
    ∀ acc, l.foldl addUnique acc = acc ++ dedupeGo acc l := by
  induction l with
  | nil => intro acc; simp [dedupeGo]
  | cons c cs ih =>
    intro acc
    by_cases h : isTruthyStr c.delegatedToId ∧
        (acc.find? (fun p => dwdKeyMatches p c)).isSome
    · rw [List.foldl_cons, addUnique_eq, if_pos h, dedupeGo, if_pos h, ih]
    · rw [List.foldl_cons, addUnique_eq, if_neg h, dedupeGo, if_neg h, ih,
        List.append_assoc]
      rfl

theorem buildAllCredentials_eq_dedupeGo (d e : List Credential) :
    buildAllCredentials d e = dedupeGo [] (allCredentialsOf d e) := by
  rw [buildAllCredentials]
  rw [foldl_addUnique_eq]
  rfl

theorem dedupeGo_filter_nonDwd (l : List Credential) :
    ∀ acc, (dedupeGo acc l).filter (fun c => ! isTruthyStr c.delegatedToId) =
      l.filter (fun c => ! isTruthyStr c.delegatedToId) := by
  induction l with
  | nil => intro acc; simp [dedupeGo]
  | cons c cs ih =>
    intro acc
    by_cases h : isTruthyStr c.delegatedToId ∧
        (acc.find? (fun p => dwdKeyMatches p c)).isSome
    · rw [dedupeGo, if_pos h, ih, List.filter_cons]
      simp [h.1]
    · rw [dedupeGo, if_neg h, List.filter_cons, List.filter_cons, ih]

theorem dedupeGo_sublist (l : List Credential) :
    ∀ acc, (dedupeGo acc l).Sublist l := by
  induction l with
  | nil => intro acc; simp [dedupeGo]
  | cons c cs ih =>
    intro acc
    by_cases h : isTruthyStr c.delegatedToId ∧
        (acc.find? (fun p => dwdKeyMatches p c)).isSome
    · rw [dedupeGo, if_pos h]
      exact (ih acc).cons c
    · rw [dedupeGo, if_neg h]
      exact (ih (acc ++ [c])).cons₂ c

theorem dedupeGo_no_acc_match (l : List Credential) :
    ∀ acc b, b ∈ dedupeGo acc l → isTruthyStr b.delegatedToId = true →
      ∀ a ∈ acc, dwdKeyMatches a b = false := by
  induction l with
  | nil => intro acc b hb; simp [dedupeGo] at hb
  | cons c cs ih =>
    intro acc b hb htb a ha
    by_cases h : isTruthyStr c.delegatedToId ∧
        (acc.find? (fun p => dwdKeyMatches p c)).isSome
    · rw [dedupeGo, if_pos h] at hb
      exact ih acc b hb htb a ha
    · rw [dedupeGo, if_neg h] at hb
      rcases List.mem_cons.mp hb with hbc | hb'
    -- head case: the keep condition says nothing in `acc` matches `c`
      · subst hbc
        have hfind : acc.find? (fun p => dwdKeyMatches p b) = none := by
          cases hfs : acc.find? (fun p => dwdKeyMatches p b) with
          | none => rfl
          | some x => exact absurd ⟨htb, by rw [hfs]; rfl⟩ h
        have := List.find?_eq_none.mp hfind a ha
        simpa using this
      · exact ih (acc ++ [c]) b hb' htb a (List.mem_append_left _ ha)

theorem dedupeGo_pairwise (l : List Credential) :
    ∀ acc, (dedupeGo acc l).Pairwise
      (fun a b => isTruthyStr b.delegatedToId = true → dwdKeyMatches a b = false) := by
  induction l with
  | nil => intro acc; simp [dedupeGo]
  | cons c cs ih =>
    intro acc
    by_cases h : isTruthyStr c.delegatedToId ∧
        (acc.find? (fun p => dwdKeyMatches p c)).isSome
    · rw [dedupeGo, if_pos h]; exact ih acc
    · rw [dedupeGo, if_neg h]
      refine List.pairwise_cons.mpr ⟨fun b hb htb => ?_, ih (acc ++ [c])⟩
      exact dedupeGo_no_acc_match cs (acc ++ [c]) b hb htb c
        (List.mem_append_right _ (List.mem_singleton.mpr rfl))

theorem dedupeGo_first_kept (l1 : List Credential) :
    ∀ (c : Credential) (l2 acc : List Credential),
      isTruthyStr c.delegatedToId = true →
      (∀ a ∈ acc, dwdKeyMatches a c = false) →
      (∀ a ∈ l1, dwdKeyMatches a c = false) →
      c ∈ dedupeGo acc (l1 ++ c :: l2) := by
  induction l1 with
  | nil =>
    intro c l2 acc htc hacc _
    have hfind : acc.find? (fun p => dwdKeyMatches p c) = none :=
      List.find?_eq_none.mpr (fun a ha => by simp [hacc a ha])
    have hcond : ¬ (isTruthyStr c.delegatedToId ∧
        (acc.find? (fun p => dwdKeyMatches p c)).isSome) := by
      rw [hfind]; simp
    rw [List.nil_append, dedupeGo, if_neg hcond]
    exact List.mem_cons_self c _
  | cons a l1 ih =>
    intro c l2 acc htc hacc hl1
    rw [List.cons_append]
    by_cases h : isTruthyStr a.delegatedToId ∧
        (acc.find? (fun p => dwdKeyMatches p a)).isSome
    · rw [dedupeGo, if_pos h]
      exact ih c l2 acc htc hacc (fun x hx => hl1 x (List.mem_cons_of_mem a hx))
    · rw [dedupeGo, if_neg h]
      refine List.mem_cons_of_mem a (ih c l2 (acc ++ [a]) htc ?_
        (fun x hx => hl1 x (List.mem_cons_of_mem a hx)))
      intro x hx
      rcases List.mem_append.mp hx with hx' | hx'
      · exact hacc x hx'
      · rw [List.mem_singleton.mp hx']
        exact hl1 a (List.mem_cons_self a l1)

/-- C3: the merger keeps every credential with no (falsy) delegation
back-reference in order; a stored credential survives (normalized)
unless its id carries the delegated-credential flag; the output is an
order-preserving subsequence of the delegated-first concatenation; a
kept delegated credential never follows a kept credential with the same
(back-reference, appId) key; and the first credential carrying a given
key is always kept. -/
theorem C3_buildAllCredentials_dedup (dwdCredentials existingCredentials : List Credential) :
    (buildAllCredentials dwdCredentials existingCredentials).filter
        (fun c => ! isTruthyStr c.delegatedToId) =
      (allCredentialsOf dwdCredentials existingCredentials).filter
        (fun c => ! isTruthyStr c.delegatedToId) ∧
    (∀ cred ∈ existingCredentials, isDwdCredential cred.id = false →
      buildNonDwdCredential cred ∈ buildAllCredentials dwdCredentials existingCredentials) ∧
    (buildAllCredentials dwdCredentials existingCredentials).Sublist
      (allCredentialsOf dwdCredentials existingCredentials) ∧
    (buildAllCredentials dwdCredentials existingCredentials).Pairwise
      (fun a b => isTruthyStr b.delegatedToId = true → dwdKeyMatches a b = false) ∧
    (∀ l1 c l2, allCredentialsOf dwdCredentials existingCredentials = l1 ++ c :: l2 →
      isTruthyStr c.delegatedToId = true →
      (∀ a ∈ l1, dwdKeyMatches a c = false) →
      c ∈ buildAllCredentials dwdCredentials existingCredentials) := by
  rw [buildAllCredentials_eq_dedupeGo]
  refine ⟨dedupeGo_filter_nonDwd _ [], fun cred hmem hflag => ?_,
    dedupeGo_sublist _ [], dedupeGo_pairwise _ [], fun l1 c l2 heq htc hl1 => ?_⟩
  · have hin : buildNonDwdCredential cred ∈
        allCredentialsOf dwdCredentials existingCredentials := by
      refine List.mem_append_right _ (List.mem_map.mpr ⟨cred, ?_, rfl⟩)
      exact List.mem_filter.mpr ⟨hmem, by simp [hflag]⟩
    have hnt : (! isTruthyStr (buildNonDwdCredential cred).delegatedToId) = true := by
      simp [buildNonDwdCredential, isTruthyStr]
    have : buildNonDwdCredential cred ∈
        (dedupeGo [] (allCredentialsOf dwdCredentials existingCredentials)).filter
          (fun c => ! isTruthyStr c.delegatedToId) := by
      rw [dedupeGo_filter_nonDwd _ []]
      exact List.mem_filter.mpr ⟨hin, hnt⟩
    exact (List.mem_filter.mp this).1
  · rw [heq]
    exact dedupeGo_first_kept l1 c l2 [] htc (by simp) hl1

/-- Witness for C3 on a concrete delegated/stored credential pair. -/
theorem C3_buildAllCredentials_dedup_witness :
    buildNonDwdCredential
        ⟨"office365_calendar", some "office365-calendar", 12, none, some 7,
          some "a@b.co", "k", false, none, none⟩ ∈
      buildAllCredentials
        [⟨"google_calendar", some "google-calendar", -1, some "dwd-1", some 7,
          some "a@b.co", "t", false, none, none⟩]
        [⟨"office365_calendar", some "office365-calendar", 12, none, some 7,
          some "a@b.co", "k", false, none, none⟩] := by
  exact (C3_buildAllCredentials_dedup
    [⟨"google_calendar", some "google-calendar", -1, some "dwd-1", some 7,
      some "a@b.co", "t", false, none, none⟩]
    [⟨"office365_calendar", some "office365-calendar", 12, none, some 7,
      some "a@b.co", "k", false, none, none⟩]).2.1
    ⟨"office365_calendar", some "office365-calendar", 12, none, some 7,
      some "a@b.co", "k", false, none, none⟩ (List.mem_singleton.mpr rfl) (by decide)

theorem foldl_addUnique_all_new (l : List Credential) :
    ∀ acc, (∀ c ∈ l, isTruthyStr c.delegatedToId = true) →
      l.Pairwise (fun a b => dwdKeyMatches a b = false) →
      (∀ a ∈ acc, ∀ c ∈ l, dwdKeyMatches a c = false) →
      l.foldl addUnique acc = acc ++ l := by
  induction l with
  | nil => intro acc _ _ _; simp
  | cons c cs ih =>
    intro acc ht hp hacc
    have hfind : acc.find? (fun p => dwdKeyMatches p c) = none :=
      List.find?_eq_none.mpr
        (fun a ha => by simp [hacc a ha c (List.mem_cons_self c cs)])
    have hstep : addUnique acc c = acc ++ [c] := by
      rw [addUnique_eq, if_neg]
      rw [hfind]
      simp
    rw [List.foldl_cons, hstep,
      ih (acc ++ [c]) (fun x hx => ht x (List.mem_cons_of_mem c hx))
        (List.pairwise_cons.mp hp).2 ?_, List.append_assoc]
    · rfl
    · intro a ha x hx
      rcases List.mem_append.mp ha with ha' | ha'
      · exact hacc a ha' x (List.mem_cons_of_mem c hx)
      · rw [List.mem_singleton.mp ha']
        exact (List.pairwise_cons.mp hp).1 x hx

theorem foldl_addUnique_all_dup (l : List Credential) :
    ∀ acc, (∀ c ∈ l, isTruthyStr c.delegatedToId = true ∧
        (acc.find? (fun p => dwdKeyMatches p c)).isSome) →
      l.foldl addUnique acc = acc := by
  induction l with
  | nil => intro acc _; rfl
  | cons c cs ih =>
    intro acc h
    have hstep : addUnique acc c = acc := by
      rw [addUnique_eq, if_pos (h c (List.mem_cons_self c cs))]
    rw [List.foldl_cons, hstep, ih acc (fun x hx => h x (List.mem_cons_of_mem c hx))]

/-- C4: with pairwise-distinct (delegation-id, appId) keys on the
delegated credentials, merging the delegated list twice (concatenated
with itself) yields the same output as merging it once. -/
theorem C4_buildAllCredentials_idempotent
    (dwdCredentials existingCredentials : List Credential)
    (ht : ∀ c ∈ dwdCredentials, isTruthyStr c.delegatedToId = true)
    (hd : dwdCredentials.Pairwise (fun a b => dwdKeyMatches a b = false)) :
    buildAllCredentials (dwdCredentials ++ dwdCredentials) existingCredentials =
      buildAllCredentials dwdCredentials existingCredentials := by
  have hfirst : dwdCredentials.foldl addUnique [] = dwdCredentials := by
    have := foldl_addUnique_all_new dwdCredentials [] ht hd (by simp)
    simpa using this
  have hsecond : dwdCredentials.foldl addUnique dwdCredentials = dwdCredentials := by
    refine foldl_addUnique_all_dup dwdCredentials dwdCredentials (fun c hc => ?_)
    refine ⟨ht c hc, ?_⟩
    rw [List.find?_isSome]
    exact ⟨c, hc, dwdKeyMatches_self c⟩
  rw [buildAllCredentials, buildAllCredentials]
  simp only [List.append_assoc, List.foldl_append, hfirst, hsecond]

/-- Witness for C4 on a concrete one-element delegated list. -/
theorem C4_buildAllCredentials_idempotent_witness :
    buildAllCredentials
        [⟨"google_calendar", some "google-calendar", -1, some "dwd-1", some 7,
          some "a@b.co", "t", false, none, none⟩,
         ⟨"google_calendar", some "google-calendar", -1, some "dwd-1", some 7,
          some "a@b.co", "t", false, none, none⟩]
        [⟨"office365_calendar", some "office365-calendar", 12, none, some 7,
          some "a@b.co", "k", false, none, none⟩] =
      buildAllCredentials
        [⟨"google_calendar", some "google-calendar", -1, some "dwd-1", some 7,
          some "a@b.co", "t", false, none, none⟩]
        [⟨"office365_calendar", some "office365-calendar", 12, none, some 7,
          some "a@b.co", "k", false, none, none⟩] := by
  exact C4_buildAllCredentials_idempotent
    [⟨"google_calendar", some "google-calendar", -1, some "dwd-1", some 7,
      some "a@b.co", "t", false, none, none⟩]
    [⟨"office365_calendar", some "office365-calendar", 12, none, some 7,
      some "a@b.co", "k", false, none, none⟩]
    (by decide) (by decide)

/-- C5: both lookup utilities return null when neither id is supplied
(truthy); in the merged-list variant a credential with a (truthy)
delegation back-reference is only ever matched through the delegation
id and a credential without one only through a supplied numeric id, so
two unset ids are never treated as equal; the repository variant
searches only the delegated list when a delegation id is supplied and
only the repository when a numeric id is supplied. -/
theorem C5_lookup_branching (credentials dwdCredentials : List Credential)
    (dwdId : Option String) (credentialId : Option Int)
    (repoFindById : Int → Option Credential) :
    (isTruthyStr dwdId = false → isTruthyInt credentialId = false →
      getDwdOrRegularCredential credentials dwdId credentialId = none) ∧
    (∀ cred, getDwdOrRegularCredential credentials dwdId credentialId = some cred →
      isTruthyStr cred.delegatedToId = true →
      cred.delegatedToId = dwdId) ∧
    (∀ cred, getDwdOrRegularCredential credentials dwdId credentialId = some cred →
      isTruthyStr cred.delegatedToId = false →
      isTruthyInt credentialId = true ∧ some cred.id = credentialId) ∧
    (isTruthyStr dwdId = false → isTruthyInt credentialId = false →
      getDwdOrFindRegularCredential repoFindById dwdCredentials dwdId credentialId
        = none) ∧
    (isTruthyStr dwdId = true →
      getDwdOrFindRegularCredential repoFindById dwdCredentials dwdId credentialId
        = dwdCredentials.find? (fun cred => cred.delegatedToId == dwdId)) ∧
    (∀ n, isTruthyStr dwdId = false → credentialId = some n → n ≠ 0 →
      getDwdOrFindRegularCredential repoFindById dwdCredentials dwdId credentialId
        = repoFindById n) := by
  refine ⟨fun hd hc => ?_, fun cred hfind ht => ?_, fun cred hfind ht => ?_,
    fun hd hc => ?_, fun hd => ?_, fun n hd hc hn => ?_⟩
  · refine List.find?_eq_none.mpr (fun cred _ => ?_)
    by_cases htc : isTruthyStr cred.delegatedToId
    · simp only [getDwdOrRegularCredential, htc, if_true]
      cases hcd : cred.delegatedToId with
      | none => rw [hcd] at htc; simp [isTruthyStr] at htc
      | some s =>
        cases dwdId with
        | none => simp
        | some t =>
          have hs : s ≠ "" := by
            rw [hcd] at htc; simpa [isTruthyStr] using htc
          have htt : t = "" := by
            simpa [isTruthyStr] using hd
          simp [htt, hs]
    · simp [htc, hc]
  · have hp := List.find?_some hfind
    simp only [ht, if_true] at hp
    exact eq_of_beq hp
  · have hp := List.find?_some hfind
    simp only [ht] at hp
    by_cases hc : isTruthyInt credentialId
    · simp only [hc, if_true] at hp
      exact ⟨hc, eq_of_beq hp⟩
    · simp [hc] at hp
  · simp only [getDwdOrFindRegularCredential, hd, if_neg, Bool.false_eq_true,
      not_false_eq_true, if_false, hc]
  · simp [getDwdOrFindRegularCredential, hd]
  · have hct : isTruthyInt (some n) = true := by simp [isTruthyInt, hn]
    rw [hc]
    simp [getDwdOrFindRegularCredential, hd, hct]

/-- Witness for C5: concrete null results and branch selections. -/
theorem C5_lookup_branching_witness :
    getDwdOrRegularCredential
        [⟨"google_calendar", some "google-calendar", -1, some "dwd-1", some 7,
          some "a@b.co", "t", false, none, none⟩] none none = none ∧
    getDwdOrFindRegularCredential (fun _ => none) [] none none = none ∧
    getDwdOrFindRegularCredential
        (fun n => some ⟨"office365_calendar", some "office365-calendar", n, none,
          some 7, some "a@b.co", "k", false, none, none⟩)
        [] none (some 12)
      = some ⟨"office365_calendar", some "office365-calendar", 12, none,
          some 7, some "a@b.co", "k", false, none, none⟩ := by
  refine ⟨(C5_lookup_branching
      [⟨"google_calendar", some "google-calendar", -1, some "dwd-1", some 7,
        some "a@b.co", "t", false, none, none⟩] [] none none (fun _ => none)).1
      rfl rfl,
    (C5_lookup_branching [] [] none none (fun _ => none)).2.2.2.1 rfl rfl, ?_⟩
  exact (C5_lookup_branching [] []
    none (some 12)
    (fun n => some ⟨"office365_calendar", some "office365-calendar", n, none,
      some 7, some "a@b.co", "k", false, none, none⟩)).2.2.2.2.2 12 rfl rfl
    (by decide)

/-- C7: a user who is neither host nor event-type owner gets Forbidden
and no note is created; for an authorized user, id -1 creates the
freeform note for every preset table (no preset lookup), and any other
id creates a preset note exactly when a preset with that id matching the
given team exists, failing with Not-Found otherwise. -/
theorem C7_handleInternalNote_correct (presets : List NotePreset)
    (internalNote : InternalNote) (booking : Booking) (userId : Int)
    (teamId : Option (Option Int)) :
    (noteUserIsHost booking userId = false → noteUserIsOwner booking userId = false →
      handleInternalNote presets internalNote booking userId teamId
        = Except.error NoteError.forbidden) ∧
    (noteUserIsHost booking userId = true ∨ noteUserIsOwner booking userId = true →
      internalNote.id = -1 →
      handleInternalNote presets internalNote booking userId teamId
        = Except.ok (CreatedNote.freeform booking.id internalNote.value userId)) ∧
    (noteUserIsHost booking userId = true ∨ noteUserIsOwner booking userId = true →
      internalNote.id ≠ -1 →
      ((∃ p ∈ presets, presetMatches teamId internalNote.id p = true) →
        handleInternalNote presets internalNote booking userId teamId
          = Except.ok (CreatedNote.preset booking.id internalNote.id userId)) ∧
      ((∀ p ∈ presets, presetMatches teamId internalNote.id p = false) →
        handleInternalNote presets internalNote booking userId teamId
          = Except.error NoteError.notFound)) := by
  refine ⟨fun hh ho => ?_, fun hauth hid => ?_, fun hauth hid => ⟨fun hex => ?_, fun hall => ?_⟩⟩
  · simp [handleInternalNote, hh, ho]
  · have hcond : (!noteUserIsHost booking userId &&
        !noteUserIsOwner booking userId) = false := by
      rcases hauth with h | h <;> simp [h]
    simp [handleInternalNote, hcond, hid]
  · have hcond : (!noteUserIsHost booking userId &&
        !noteUserIsOwner booking userId) = false := by
      rcases hauth with h | h <;> simp [h]
    have hfs : (presets.find? (presetMatches teamId internalNote.id)).isSome := by
      rw [List.find?_isSome]
      rcases hex with ⟨p, hp, hm⟩
      exact ⟨p, hp, hm⟩
    cases hfind : presets.find? (presetMatches teamId internalNote.id) with
    | none => rw [hfind] at hfs; simp at hfs
    | some p => simp [handleInternalNote, hcond, hid, hfind]
  · have hcond : (!noteUserIsHost booking userId &&
        !noteUserIsOwner booking userId) = false := by
      rcases hauth with h | h <;> simp [h]
    have hfind : presets.find? (presetMatches teamId internalNote.id) = none :=
      List.find?_eq_none.mpr (fun p hp => by simp [hall p hp])
    simp [handleInternalNote, hcond, hid, hfind]

/-- Witness for C7: concrete forbidden, freeform, preset-found and
preset-missing outcomes. -/
theorem C7_handleInternalNote_correct_witness :
    handleInternalNote [] ⟨-1, "Other", some "text"⟩
        ⟨10, ⟨[⟨3⟩], none⟩⟩ 4 (some (some 2))
      = Except.error NoteError.forbidden ∧
    handleInternalNote [⟨5, some 2⟩] ⟨-1, "Other", some "text"⟩
        ⟨10, ⟨[⟨4⟩], none⟩⟩ 4 (some (some 2))
      = Except.ok (CreatedNote.freeform 10 (some "text") 4) ∧
    handleInternalNote [⟨5, some 2⟩] ⟨5, "Preset", none⟩
        ⟨10, ⟨[⟨4⟩], none⟩⟩ 4 (some (some 2))
      = Except.ok (CreatedNote.preset 10 5 4) ∧
    handleInternalNote [] ⟨5, "Preset", none⟩
        ⟨10, ⟨[⟨4⟩], none⟩⟩ 4 (some (some 2))
      = Except.error NoteError.notFound := by
  refine ⟨(C7_handleInternalNote_correct [] ⟨-1, "Other", some "text"⟩
      ⟨10, ⟨[⟨3⟩], none⟩⟩ 4 (some (some 2))).1 (by decide) (by decide),
    (C7_handleInternalNote_correct [⟨5, some 2⟩] ⟨-1, "Other", some "text"⟩
      ⟨10, ⟨[⟨4⟩], none⟩⟩ 4 (some (some 2))).2.1 (Or.inl (by decide)) (by decide),
    ((C7_handleInternalNote_correct [⟨5, some 2⟩] ⟨5, "Preset", none⟩
      ⟨10, ⟨[⟨4⟩], none⟩⟩ 4 (some (some 2))).2.2 (Or.inl (by decide)) (by decide)).1
      ⟨⟨5, some 2⟩, List.mem_singleton.mpr rfl, by decide⟩,
    ((C7_handleInternalNote_correct [] ⟨5, "Preset", none⟩
      ⟨10, ⟨[⟨4⟩], none⟩⟩ 4 (some (some 2))).2.2 (Or.inl (by decide)) (by decide)).2
      (fun p hp => by simp at hp)⟩

/-- C9 counterexample: `organizationId = 0` is non-null, yet with an
empty user batch the resolver short-circuits on the JavaScript-falsy
guard and returns the empty mapping instead of reaching the
empty-collection dereference the claim asserts. -/
theorem C9_resolver_totality_counterexample :
    (some (0 : Int)) ≠ (none : Option Int) ∧
    _getDwdCredentialsMapPerUser (fun _ _ => none) (some 0) []
      = some emptyCredMap := by
  exact ⟨by simp, rfl⟩

/-- C9 (amended): the batch resolver returns the empty mapping for a
falsy (null or zero) organization id regardless of the user batch; with
a truthy organization id and an empty batch it dereferences the missing
first user (modelled as `none`, the crash); it is total exactly when
the organization id is falsy or the batch is non-empty. -/
theorem C9_resolver_totality
    (repoFindByOrgDomain : Int → Option String → Option DomainWideDelegation)
    (organizationId : Option Int) (users : List User) :
    (isTruthyInt organizationId = false →
      _getDwdCredentialsMapPerUser repoFindByOrgDomain organizationId users
        = some emptyCredMap) ∧
    (isTruthyInt organizationId = true → users = [] →
      _getDwdCredentialsMapPerUser repoFindByOrgDomain organizationId users = none) ∧
    ((_getDwdCredentialsMapPerUser repoFindByOrgDomain organizationId users).isSome
      ↔ (isTruthyInt organizationId = false ∨ users ≠ [])) := by
  refine ⟨fun h => by simp [_getDwdCredentialsMapPerUser, h],
    fun ht hu => by simp [_getDwdCredentialsMapPerUser, ht, hu], ?_⟩
  by_cases ht : isTruthyInt organizationId
  · cases users with
    | nil => simp [_getDwdCredentialsMapPerUser, ht]
    | cons u0 us =>
      simp only [_getDwdCredentialsMapPerUser, ht, Bool.not_true, Bool.false_eq_true,
        if_false]
      cases repoFindByOrgDomain (organizationId.getD 0) (emailDomain u0.email) with
      | none => simp
      | some dwd =>
        by_cases he : dwd.enabled
        · simp [he]
        · simp [he]
  · have htf : isTruthyInt organizationId = false := by simpa using ht
    simp [_getDwdCredentialsMapPerUser, htf]

/-- Witness for C9: a concrete empty batch with a truthy organization
id reaches the crash, and a null organization id gives the empty map. -/
theorem C9_resolver_totality_witness :
    _getDwdCredentialsMapPerUser (fun _ _ => none) (some 42) [] = none ∧
    _getDwdCredentialsMapPerUser (fun _ _ => none) none [⟨"a@b.co", 7⟩]
      = some emptyCredMap := by
  exact ⟨(C9_resolver_totality (fun _ _ => none) (some 42) []).2.1
      (by decide) rfl,
    (C9_resolver_totality (fun _ _ => none) none [⟨"a@b.co", 7⟩]).1 rfl⟩

/-- C8: on success, user enrichment returns exactly the input records
with the credentials field replaced by the merged set — id, email and
every other field (`rest`) unchanged, record by record — and host
enrichment additionally preserves all non-user host fields; the input
lists are untouched (the output is freshly constructed by `List.map`). -/
theorem C8_enrichment_preserves_fields {α β : Type}
    (repoFindByOrgDomain : Int → Option String → Option DomainWideDelegation)
    (orgId : Option Int) (users : List (EnrichedUser α))
    (hosts : List (EnrichedHost α β)) :
    (∀ out, enrichUsersWithDwdCredentials repoFindByOrgDomain orgId users = some out →
      ∃ m, _getDwdCredentialsMapPerUser repoFindByOrgDomain orgId
          (users.map userRefOf) = some m ∧
        out = users.map (fun u =>
          { u with credentials := buildAllCredentials ((m u.id).getD []) u.credentials }) ∧
        ∀ i, (out.get? i).map (fun u => (u.id, u.email, u.rest))
          = (users.get? i).map (fun u => (u.id, u.email, u.rest))) ∧
    (∀ out, enrichHostsWithDwdCredentials repoFindByOrgDomain orgId hosts = some out →
      ∃ m, _getDwdCredentialsMapPerUser repoFindByOrgDomain orgId
          (hosts.map (fun host => userRefOf host.user)) = some m ∧
        out = hosts.map (fun host =>
          { host with user := { host.user with
              credentials := buildAllCredentials
                ((m host.user.id).getD []) host.user.credentials } }) ∧
        ∀ i, (out.get? i).map (fun h => (h.rest, h.user.id, h.user.email, h.user.rest))
          = (hosts.get? i).map (fun h => (h.rest, h.user.id, h.user.email, h.user.rest))) := by
  constructor
  · intro out hout
    cases hm : _getDwdCredentialsMapPerUser repoFindByOrgDomain orgId
        (users.map userRefOf) with
    | none => rw [enrichUsersWithDwdCredentials, hm] at hout; exact absurd hout (by simp)
    | some m =>
      rw [enrichUsersWithDwdCredentials, hm] at hout
      refine ⟨m, rfl, by injection hout with h; exact h.symm, fun i => ?_⟩
      injection hout with h
      rw [← h, List.get?_map]
      cases users.get? i <;> rfl
  · intro out hout
    cases hm : _getDwdCredentialsMapPerUser repoFindByOrgDomain orgId
        (hosts.map (fun host => userRefOf host.user)) with
    | none => rw [enrichHostsWithDwdCredentials, hm] at hout; exact absurd hout (by simp)
    | some m =>
      rw [enrichHostsWithDwdCredentials, hm] at hout
      refine ⟨m, rfl, by injection hout with h; exact h.symm, fun i => ?_⟩
      injection hout with h
      rw [← h, List.get?_map]
      cases hosts.get? i <;> rfl

/-- Witness for C8: one concrete user and one concrete host enriched
with a null organization id keep every non-credential field. -/
theorem C8_enrichment_preserves_fields_witness :
    (∃ m, _getDwdCredentialsMapPerUser (fun _ _ => none) none
        ([⟨7, "a@b.co", [], (3 : Nat)⟩].map userRefOf) = some m ∧
      [⟨7, "a@b.co", buildAllCredentials [] [], (3 : Nat)⟩]
        = [(⟨7, "a@b.co", [], (3 : Nat)⟩ : EnrichedUser Nat)].map (fun u =>
            { u with credentials := buildAllCredentials ((m u.id).getD []) u.credentials }) ∧
      ∀ i, (([⟨7, "a@b.co", buildAllCredentials [] [], (3 : Nat)⟩] : List (EnrichedUser Nat)).get? i).map
          (fun u => (u.id, u.email, u.rest))
        = (([⟨7, "a@b.co", [], (3 : Nat)⟩] : List (EnrichedUser Nat)).get? i).map
          (fun u => (u.id, u.email, u.rest))) := by
  refine (C8_enrichment_preserves_fields (fun _ _ => none) none
    [⟨7, "a@b.co", [], (3 : Nat)⟩] ([] : List (EnrichedHost Nat Nat))).1
    [⟨7, "a@b.co", buildAllCredentials [] [], (3 : Nat)⟩] ?_
  rfl

theorem firstIndexOf_not_mem_take (c : Char) (l : List Char) :
    ∀ i, firstIndexOf l c = some i → c ∉ l.take i := by
  induction l with
  | nil => intro i h; simp [firstIndexOf] at h
  | cons x xs ih =>
    intro i h
    by_cases hx : x = c
    · rw [firstIndexOf, if_pos hx] at h
      injection h with h
      subst h
      simp
    · rw [firstIndexOf, if_neg hx] at h
      cases hfi : firstIndexOf xs c with
      | none => rw [hfi] at h; simp at h
      | some j =>
        rw [hfi] at h
        injection h with h
        subst h
        simp only [List.take_succ_cons]
        intro hmem
        rcases List.mem_cons.mp hmem with hc | hc
        · exact hx hc.symm
        · exact ih j hfi hc

theorem firstIndexOf_append_cons (c : Char) (l1 l2 : List Char)
    (h : c ∉ l1) : firstIndexOf (l1 ++ c :: l2) c = some l1.length := by
  induction l1 with
  | nil => simp [firstIndexOf]
  | cons x xs ih =>
    have hx : x ≠ c := fun hc => h (hc ▸ List.mem_cons_self x xs)
    rw [List.cons_append, firstIndexOf, if_neg hx,
      ih (fun hc => h (List.mem_cons_of_mem x hc))]
    rfl

theorem lastIndexOf_eq_none (c : Char) (l : List Char) (h : c ∉ l) :
    lastIndexOf l c = none := by
  induction l with
  | nil => rfl
  | cons x xs ih =>
    have hx : x ≠ c := fun hc => h (hc ▸ List.mem_cons_self x xs)
    rw [lastIndexOf, ih (fun hc => h (List.mem_cons_of_mem x hc)), if_neg hx]

theorem lastIndexOf_append_cons (c : Char) (l1 l2 : List Char)
    (h : c ∉ l2) : lastIndexOf (l1 ++ c :: l2) c = some l1.length := by
  induction l1 with
  | nil =>
    rw [List.nil_append, lastIndexOf, lastIndexOf_eq_none c l2 h, if_pos rfl]
    rfl
  | cons x xs ih =>
    rw [List.cons_append, lastIndexOf, ih]
    rfl

theorem toList_append (s t : String) : (s ++ t).toList = s.toList ++ t.toList :=
  String.data_append s t

/-- The CSRF hash check succeeds exactly on tokens of the shape
`salt ++ "-" ++ hash(salt ++ "-" ++ secret)` for a dash-free salt. -/
theorem verifyToken_iff (P : CryptoPrims) (secret token : String) :
    verifyToken P secret token = true ↔
      ∃ salt : String, '-' ∉ salt.toList ∧ token = tokenize P secret salt := by
  constructor
  · intro h
    rw [verifyToken] at h
    cases hfi : firstIndexOf token.toList '-' with
    | none => rw [hfi] at h; simp at h
    | some i =>
      rw [hfi] at h
      refine ⟨String.mk (token.toList.take i), ?_, eq_of_beq h⟩
      exact firstIndexOf_not_mem_take '-' token.toList i hfi
  · rintro ⟨salt, hns, rfl⟩
    have hlist : (tokenize P secret salt).toList =
        salt.toList ++ '-' :: (P.sha1b64url (salt ++ "-" ++ secret)).toList := by
      rw [tokenize, toList_append, toList_append, List.append_assoc]
      rfl
    have hfi : firstIndexOf (tokenize P secret salt).toList '-'
        = some salt.toList.length := by
      rw [hlist]
      exact firstIndexOf_append_cons '-' salt.toList _ hns
    have htake : (tokenize P secret salt).toList.take salt.toList.length
        = salt.toList := by
      rw [hlist]
      exact List.take_left salt.toList _
    rw [verifyToken, hfi]
    show (tokenize P secret salt ==
      tokenize P secret
        (String.mk ((tokenize P secret salt).toList.take salt.toList.length))) = true
    rw [htake]
    have hmk : String.mk salt.toList = salt := rfl
    rw [hmk]
    simp

/-- Unsigning a signed value recovers it whenever the HMAC layer's
output contains no dot (base64 output never does). -/
theorem cookieUnsign_cookieSign (P : CryptoPrims) (val secret : String)
    (h : '.' ∉ (P.hmac val secret).toList) :
    cookieUnsign P (cookieSign P val secret) secret = some val := by
  have hlist : (cookieSign P val secret).toList =
      val.toList ++ '.' :: (P.hmac val secret).toList := by
    rw [cookieSign, toList_append, toList_append, List.append_assoc]
    rfl
  have hli : lastIndexOf (cookieSign P val secret).toList '.'
      = some val.toList.length := by
    rw [hlist]
    exact lastIndexOf_append_cons '.' val.toList _ h
  have htake : (cookieSign P val secret).toList.take val.toList.length
      = val.toList := by
    rw [hlist]
    exact List.take_left val.toList _
  rw [cookieUnsign]
  simp only [hli, htake]
  have hmk : String.mk val.toList = val := rfl
  rw [hmk]
  simp

/-- A signed token is never the empty string (it contains a dot). -/
theorem cookieSign_ne_empty (P : CryptoPrims) (val secret : String) :
    cookieSign P val secret ≠ "" := by
  intro h
  have : (cookieSign P val secret).toList = [] := by rw [h]; rfl
  rw [cookieSign, toList_append, toList_append] at this
  simp at this

/-- C6: CSRF verification rejects with Invalid-CSRF when the request
has no cookie header, when the token or secret cookie is absent or
empty, when unsigning the signed token fails, or when the token's
salt-derived hash check fails (equivalently, the unsigned token is not
`salt ++ "-" ++ hash(salt ++ "-" ++ csrfSecret)` for its dash-free
salt); in every other case it succeeds, setting exactly one fresh signed
visible-token cookie built from a new salt; a well-formed signed token
pair always verifies. -/
theorem C6_csrf_verify_correct (P : CryptoPrims) (secret newSalt : String)
    (req : Request) :
    (req.cookieHeader = none → verify P secret newSalt req = Except.error ()) ∧
    (∀ pairs, req.cookieHeader = some pairs →
      ¬ (isTruthyStr (pairs.lookup tokenCookieName) = true ∧
         isTruthyStr (pairs.lookup secretCookieName) = true) →
      verify P secret newSalt req = Except.error ()) ∧
    (∀ pairs token csrfSecret, req.cookieHeader = some pairs →
      pairs.lookup tokenCookieName = some token →
      pairs.lookup secretCookieName = some csrfSecret →
      token ≠ "" → csrfSecret ≠ "" →
      cookieUnsign P token secret = none →
      verify P secret newSalt req = Except.error ()) ∧
    (∀ pairs token csrfSecret unsignedToken, req.cookieHeader = some pairs →
      pairs.lookup tokenCookieName = some token →
      pairs.lookup secretCookieName = some csrfSecret →
      token ≠ "" → csrfSecret ≠ "" →
      cookieUnsign P token secret = some unsignedToken →
      verifyToken P csrfSecret unsignedToken = false →
      verify P secret newSalt req = Except.error ()) ∧
    (∀ pairs token csrfSecret unsignedToken, req.cookieHeader = some pairs →
      pairs.lookup tokenCookieName = some token →
      pairs.lookup secretCookieName = some csrfSecret →
      token ≠ "" → csrfSecret ≠ "" →
      cookieUnsign P token secret = some unsignedToken →
      verifyToken P csrfSecret unsignedToken = true →
      verify P secret newSalt req = Except.ok
        [(tokenCookieName, cookieSign P (tokenize P csrfSecret newSalt) secret)]) ∧
    (∀ s t, verifyToken P s t = true ↔
      ∃ salt : String, '-' ∉ salt.toList ∧ t = tokenize P s salt) ∧
    (∀ pairs csrfSecret salt, req.cookieHeader = some pairs →
      pairs.lookup tokenCookieName
        = some (cookieSign P (tokenize P csrfSecret salt) secret) →
      pairs.lookup secretCookieName = some csrfSecret →
      csrfSecret ≠ "" → '-' ∉ salt.toList →
      '.' ∉ (P.hmac (tokenize P csrfSecret salt) secret).toList →
      verify P secret newSalt req = Except.ok
        [(tokenCookieName, cookieSign P (tokenize P csrfSecret newSalt) secret)]) := by
  refine ⟨fun h => by simp [verify, h],
    fun pairs hp hfalsy => ?_,
    fun pairs token csrfSecret hp ht hs htne hsne hcu => ?_,
    fun pairs token csrfSecret unsignedToken hp ht hs htne hsne hcu hvt => ?_,
    fun pairs token csrfSecret unsignedToken hp ht hs htne hsne hcu hvt => ?_,
    verifyToken_iff P,
    fun pairs csrfSecret salt hp ht hs hsne hsalt hdot => ?_⟩
  · simp only [verify, hp]
    rw [if_pos hfalsy]
  · simp only [verify, hp, ht, hs]
    rw [if_neg (by simp [isTruthyStr, htne, hsne])]
    simp only [Option.getD_some]
    rw [hcu]
  · simp only [verify, hp, ht, hs]
    rw [if_neg (by simp [isTruthyStr, htne, hsne])]
    simp only [Option.getD_some]
    rw [hcu]
    simp [hvt]
  · simp only [verify, hp, ht, hs]
    rw [if_neg (by simp [isTruthyStr, htne, hsne])]
    simp only [Option.getD_some]
    rw [hcu]
    simp [hvt]
  · have htne := cookieSign_ne_empty P (tokenize P csrfSecret salt) secret
    simp only [verify, hp, ht, hs]
    rw [if_neg (by simp [isTruthyStr, htne, hsne])]
    simp only [Option.getD_some]
    rw [cookieUnsign_cookieSign P _ secret hdot]
    have hvt : verifyToken P csrfSecret (tokenize P csrfSecret salt) = true :=
      (verifyToken_iff P csrfSecret _).mpr ⟨salt, hsalt, rfl⟩
    simp [hvt]

/-- Abstract hash primitives instantiated with constant functions, for
concrete evaluation. -/
def constPrims : CryptoPrims :=
  { sha1b64url := fun _ => "HASH", hmac := fun _ _ => "MAC" }

/-- Witness for C6: a concrete request with a well-formed token pair
verifies and rotates the visible token; a concrete cookieless request
fails. -/
theorem C6_csrf_verify_correct_witness :
    verify constPrims "srv" "cd"
        ⟨some [(tokenCookieName, cookieSign constPrims (tokenize constPrims "sec" "ab") "srv"),
               (secretCookieName, "sec")]⟩
      = Except.ok [(tokenCookieName, cookieSign constPrims (tokenize constPrims "sec" "cd") "srv")] ∧
    verify constPrims "srv" "cd" ⟨none⟩ = Except.error () := by
  constructor
  · exact (C6_csrf_verify_correct constPrims "srv" "cd"
      ⟨some [(tokenCookieName, cookieSign constPrims (tokenize constPrims "sec" "ab") "srv"),
             (secretCookieName, "sec")]⟩).2.2.2.2.2.2
      [(tokenCookieName, cookieSign constPrims (tokenize constPrims "sec" "ab") "srv"),
       (secretCookieName, "sec")] "sec" "ab" rfl (by rfl) (by rfl)
      (by decide) (by decide) (by decide)
  · exact (C6_csrf_verify_correct constPrims "srv" "cd" ⟨none⟩).1 rfl

theorem verify_ok_shape (P : CryptoPrims) (secret newSalt : String) (req : Request)
    (o : List (String × String)) (h : verify P secret newSalt req = Except.ok o) :
    ∃ v, o = [(tokenCookieName, v)] := by
  cases req with
  | mk ch =>
    cases ch with
    | none => simp [verify] at h
    | some pairs =>
      simp only [verify] at h
      by_cases hc : ¬ (isTruthyStr (pairs.lookup tokenCookieName) = true ∧
          isTruthyStr (pairs.lookup secretCookieName) = true)
      · rw [if_pos hc] at h
        simp at h
      · rw [if_neg hc] at h
        cases hcu : cookieUnsign P ((pairs.lookup tokenCookieName).getD "") secret with
        | none => rw [hcu] at h; simp at h
        | some u =>
          rw [hcu] at h
          split at h
          · simp at h
          · split at h
            · simp at h
            · injection h with h
              exact ⟨_, h.symm⟩

theorem lookup_foldl_token_cookies (outs : List (List (String × String))) :
    ∀ store, (∀ o ∈ outs, ∃ v, o = [(tokenCookieName, v)]) →
      (outs.foldl (fun st o => applyCookies o st) store).lookup secretCookieName
        = store.lookup secretCookieName := by
  induction outs with
  | nil => intro store _; rfl
  | cons o os ih =>
    intro store hshape
    obtain ⟨v, rfl⟩ := hshape o (List.mem_cons_self o os)
    rw [List.foldl_cons, ih (applyCookies [(tokenCookieName, v)] store)
      (fun x hx => hshape x (List.mem_cons_of_mem _ hx))]
    simp [applyCookies, List.lookup, secretCookieName, tokenCookieName]

/-- C10: the cookies set by any successful verification are exactly one
`XSRF-TOKEN` cookie — `csrfSecret` is never written — so applying any
sequence of successful verification responses to a cookie store leaves
the stored secret unchanged. -/
theorem C10_verify_never_writes_secret
    (outs : List (List (String × String))) (store : List (String × String))
    (h : ∀ o ∈ outs, ∃ P secret newSalt req,
      verify P secret newSalt req = Except.ok o) :
    (∀ o ∈ outs, ∃ v, o = [(tokenCookieName, v)]) ∧
    (outs.foldl (fun st o => applyCookies o st) store).lookup secretCookieName
      = store.lookup secretCookieName := by
  have hshape : ∀ o ∈ outs, ∃ v, o = [(tokenCookieName, v)] := by
    intro o ho
    obtain ⟨P, secret, newSalt, req, hver⟩ := h o ho
    exact verify_ok_shape P secret newSalt req o hver
  exact ⟨hshape, lookup_foldl_token_cookies outs store hshape⟩

/-- Witness for C10: one concrete successful verification applied to a
concrete store keeps the secret cookie. -/
theorem C10_verify_never_writes_secret_witness :
    ([[(tokenCookieName, cookieSign constPrims (tokenize constPrims "sec" "cd") "srv")]].foldl
        (fun st o => applyCookies o st)
        [(secretCookieName, "sec")]).lookup secretCookieName
      = ([(secretCookieName, "sec")] : List (String × String)).lookup secretCookieName := by
  refine (C10_verify_never_writes_secret
    [[(tokenCookieName, cookieSign constPrims (tokenize constPrims "sec" "cd") "srv")]]
    [(secretCookieName, "sec")] ?_).2
  intro o ho
  refine ⟨constPrims, "srv", "cd",
    ⟨some [(tokenCookieName, cookieSign constPrims (tokenize constPrims "sec" "ab") "srv"),
           (secretCookieName, "sec")]⟩, ?_⟩
  rw [List.mem_singleton.mp ho]
  rfl

/-- C1: every end-time string is parsed as a UTC ISO instant and
re-serialized after the adjustment; a parsed value whose time-of-day is
exactly midnight (00:00:00) is replaced by 23:59:59 of the same date
(date and milliseconds untouched), any other value is unchanged; the two
example strings map as specified. -/
theorem C1_adjustEndTime_correct :
    (∀ s dt, parseISO s = some dt →
      adjustEndTime s = some (toISO (adjustEndTimeFields dt))) ∧
    (∀ dt : DateTimeUTC, dt.hour = 0 ∧ dt.minute = 0 ∧ dt.second = 0 →
      adjustEndTimeFields dt = { dt with hour := 23, minute := 59, second := 59 }) ∧
    (∀ dt : DateTimeUTC, ¬ (dt.hour = 0 ∧ dt.minute = 0 ∧ dt.second = 0) →
      adjustEndTimeFields dt = dt) ∧
    adjustEndTime "2024-01-01T00:00:00.000Z" = some "2024-01-01T23:59:59.000Z" ∧
    adjustEndTime "2024-01-01T10:30:00.000Z" = some "2024-01-01T10:30:00.000Z" := by
  refine ⟨fun s dt h => ?_, fun dt h => ?_, fun dt h => ?_, by decide, by decide⟩
  · simp [adjustEndTime, h]
  · simp [adjustEndTimeFields, h]
  · simp [adjustEndTimeFields, h]

/-- Witness for C1 at concrete inputs. -/
theorem C1_adjustEndTime_correct_witness :
    adjustEndTime "2024-01-01T00:00:00.000Z" = some "2024-01-01T23:59:59.000Z" ∧
    adjustEndTimeFields ⟨2024, 1, 1, 0, 0, 0, 0⟩ = ⟨2024, 1, 1, 23, 59, 59, 0⟩ ∧
    adjustEndTimeFields ⟨2024, 1, 1, 10, 30, 0, 0⟩ = ⟨2024, 1, 1, 10, 30, 0, 0⟩ := by
  have h := C1_adjustEndTime_correct
  exact ⟨h.2.2.2.1,
    h.2.1 ⟨2024, 1, 1, 0, 0, 0, 0⟩ (by decide),
    h.2.2.1 ⟨2024, 1, 1, 10, 30, 0, 0⟩ (by decide)⟩

/-- C2: the builder yields an empty list for a null configuration, a
disabled configuration, or a platform other than google; for an enabled
google configuration it yields exactly one calendar credential followed
by one conferencing credential, each with `delegatedToId` equal to the
configuration's id. -/
theorem C2_buildDwdCredentials_correct (dwd : Option DomainWideDelegation)
    (user : User) :
    (dwd = none → _buildDwdCredentials dwd user = []) ∧
    (∀ d, dwd = some d → d.enabled = false → _buildDwdCredentials dwd user = []) ∧
    (∀ d, dwd = some d → d.workspacePlatformSlug ≠ "google" →
      _buildDwdCredentials dwd user = []) ∧
    (∀ d, dwd = some d → d.enabled = true → d.workspacePlatformSlug = "google" →
      ∃ ccal ccon, _buildDwdCredentials dwd user = [ccal, ccon] ∧
        _isCalendarCredential ccal = true ∧ _isConferencingCredential ccon = true ∧
        ccal.delegatedToId = some d.id ∧ ccon.delegatedToId = some d.id) := by
  refine ⟨fun h => by simp [h, _buildDwdCredentials],
    fun d hd hdis => by simp [hd, _buildDwdCredentials, hdis],
    fun d hd hslug => by
      simp [hd, _buildDwdCredentials, _buildDwdCalendarCredential,
        _buildDwdConferencingCredential, hslug],
    fun d hd hen hslug => ?_⟩
  refine ⟨{ _buildCommonUserCredential d user with
              type := googleCalendarMetadata.type
              appId := some googleCalendarMetadata.slug },
          { _buildCommonUserCredential d user with
              type := googleMeetMetadata.type
              appId := some googleMeetMetadata.slug }, ?_, ?_, ?_, rfl, rfl⟩
  · simp [hd, _buildDwdCredentials, hen, _buildDwdCalendarCredential,
      _buildDwdConferencingCredential, hslug]
  · rfl
  · rfl

/-- Witness for C2 at a concrete enabled google configuration and a
concrete disabled one. -/
theorem C2_buildDwdCredentials_correct_witness :
    (∃ ccal ccon,
      _buildDwdCredentials (some ⟨"dwd-1", "google", none, true⟩) ⟨"a@b.co", 7⟩
        = [ccal, ccon] ∧
      _isCalendarCredential ccal = true ∧ _isConferencingCredential ccon = true ∧
      ccal.delegatedToId = some "dwd-1" ∧ ccon.delegatedToId = some "dwd-1") ∧
    _buildDwdCredentials (some ⟨"dwd-1", "slack", none, true⟩) ⟨"a@b.co", 7⟩ = [] ∧
    _buildDwdCredentials none ⟨"a@b.co", 7⟩ = [] := by
  refine ⟨(C2_buildDwdCredentials_correct
      (some ⟨"dwd-1", "google", none, true⟩) ⟨"a@b.co", 7⟩).2.2.2
      ⟨"dwd-1", "google", none, true⟩ rfl rfl rfl, ?_, ?_⟩
  · exact (C2_buildDwdCredentials_correct
      (some ⟨"dwd-1", "slack", none, true⟩) ⟨"a@b.co", 7⟩).2.2.1
      ⟨"dwd-1", "slack", none, true⟩ rfl (by decide)
  · exact (C2_buildDwdCredentials_correct none ⟨"a@b.co", 7⟩).1 rfl

end CalSpec
